import Mathlib

/-!
Shallow embedding of the in-memory poll store of `src/backend/main.py`
(Quick Election Service).

Modelling decisions:
* Python strings are modelled as `List Char` (`Str`), so that `strip`,
  `lower` and lexicographic comparison are structurally recursive and
  evaluate inside the kernel.  `str.strip()` is `strip` (whitespace removed
  from both ends), `str.lower()` is `lower` (characterwise `Char.toLower`),
  and Python's code-point lexicographic string comparison (used by
  `list.sort(key=...)`) is `strLe`.
* Python `dict` values are modelled as insertion-ordered association lists
  (`List (κ × α)`); `d.get(k)` is `dictGet`, `d[k] = v` is `dictInsert`
  (updating in place when the key exists, appending otherwise, as CPython
  dicts do), `k in d` is `dictContains`, `d.values()` is `List.map Prod.snd`.
* `uuid4().hex` identifiers are modelled as natural numbers drawn from a
  monotone counter `Store.nextId`: each call hands out fresh, never-reused
  ids, which is the property uuid generation provides.
* `datetime.utcnow()` is modelled by passing the current time as an explicit
  `Nat` argument to the operations that read the clock.
* Python exceptions are modelled with `Except StoreError`:
  `KeyError("Poll not found")` is `StoreError.NotFound`,
  `ValueError("Poll is closed")` is `StoreError.AlreadyClosed`,
  `ValueError("This voter has already voted in this poll")` is
  `StoreError.DuplicateVoter`, `ValueError("Option not found")` is
  `StoreError.InvalidOption`, and a pydantic validator raising `ValueError`
  is `StoreError.ValidationError`.  An operation that raises mutates
  nothing, so errors carry no store.
-/

set_option autoImplicit false

namespace Elections

/-- Error taxonomy of the store (section 7 of the design). -/
inductive StoreError where
  | NotFound
  | AlreadyClosed
  | DuplicateVoter
  | InvalidOption
  | ValidationError
deriving Repr, DecidableEq

/-- A Python string, as its list of characters. -/
abbrev Str := List Char

/-- Write a `Str` from a Lean string literal. -/
def str (s : String) : Str := s.data

/-- `str.strip()`: drop whitespace from both ends. -/
def strip (s : Str) : Str :=
  ((s.dropWhile Char.isWhitespace).reverse.dropWhile Char.isWhitespace).reverse

/-- `str.lower()`: characterwise lowercasing. -/
def lower (s : Str) : Str := s.map Char.toLower

/-- Python's `<=` on strings: lexicographic comparison by code point. -/
def strLe : Str → Str → Bool
  | [], _ => true
  | _ :: _, [] => false
  | a :: as, b :: bs =>
      if a.toNat < b.toNat then true
      else if b.toNat < a.toNat then false
      else strLe as bs

/-- `d.get(k)` on a Python dict: the binding of the key, if any. -/
def dictGet {κ α : Type} [DecidableEq κ] : List (κ × α) → κ → Option α
  | [], _ => none
  | (k', v) :: rest, k => if k' = k then some v else dictGet rest k

/-- `k in d` on a Python dict. -/
def dictContains {κ α : Type} [DecidableEq κ] (d : List (κ × α)) (k : κ) : Bool :=
  (dictGet d k).isSome

/-- `d[k] = v` on a Python dict: update in place when the key is present
(keeping its position), append otherwise. -/
def dictInsert {κ α : Type} [DecidableEq κ] : List (κ × α) → κ → α → List (κ × α)
  | [], k, v => [(k, v)]
  | (k', v') :: rest, k, v =>
      if k' = k then (k, v) :: rest else (k', v') :: dictInsert rest k v

/-- `PollOptionRecord` dataclass: id, label, vote counter (default 0). -/
structure PollOptionRecord where
  id : Nat
  label : Str
  votes : Nat
deriving Repr, DecidableEq

/-- `PollRecord` dataclass: status is the string enum `PollStatus`
("open" / "closed"); `options` is keyed by option id; `voters` maps the
normalized voter key to the chosen option id. -/
structure PollRecord where
  id : Nat
  title : Str
  status : String
  created_at : Nat
  closed_at : Option Nat
  options : List (Nat × PollOptionRecord)
  voters : List (Str × Nat)
deriving Repr, DecidableEq

/-- `PollOption` response model. -/
structure PollOption where
  id : Nat
  label : Str
  votes : Nat
deriving Repr, DecidableEq

/-- `PollResponse` response model. -/
structure PollResponse where
  id : Nat
  title : Str
  status : String
  created_at : Nat
  closed_at : Option Nat
  options : List PollOption
deriving Repr, DecidableEq

/-- `PollStore` state: the `_polls` dict plus the id-generation counter
standing in for `uuid4`. -/
structure Store where
  polls : List (Nat × PollRecord)
  nextId : Nat
deriving Repr, DecidableEq

/-- `PollStore.__init__`: empty store. -/
def Store.empty : Store := { polls := [], nextId := 0 }

/-- Sort order of `_to_response`: options sorted by `opt.label.lower()`
ascending. -/
def optionSortRel (a b : PollOption) : Prop :=
  strLe (lower a.label) (lower b.label) = true

instance : DecidableRel optionSortRel := fun a b =>
  inferInstanceAs (Decidable (strLe (lower a.label) (lower b.label) = true))

/-- Sort order of `all_polls`: `records.sort(key=created_at, reverse=True)`,
newest first. -/
def pollSortRel (a b : PollRecord) : Prop :=
  b.created_at ≤ a.created_at

instance : DecidableRel pollSortRel := fun a b =>
  inferInstanceAs (Decidable (b.created_at ≤ a.created_at))

/-- The corresponding newest-first order on the projected views. -/
def pollViewNewestFirst (a b : PollResponse) : Prop :=
  b.created_at ≤ a.created_at

instance : DecidableRel pollViewNewestFirst := fun a b =>
  inferInstanceAs (Decidable (b.created_at ≤ a.created_at))

/-- `PollStore._to_response`: project a record to a view, options sorted by
lowercased label ascending. -/
def to_response (record : PollRecord) : PollResponse :=
  let options := record.options.map fun o =>
    PollOption.mk o.2.id o.2.label o.2.votes
  { id := record.id
    title := record.title
    status := record.status
    created_at := record.created_at
    closed_at := record.closed_at
    options := List.insertionSort optionSortRel options }

/-- `PollStore.all_polls`: snapshot the records, sort newest-created-first,
project each.  Pure: it takes the store and returns only the views, so it
can neither fail nor change the store. -/
def all_polls (s : Store) : List PollResponse :=
  (List.insertionSort pollSortRel (s.polls.map Prod.snd)).map to_response

/-- The option records made by `create_poll`'s loop: one fresh id per label,
vote counter 0.  The generated ids `n, n+1, ...` are pairwise distinct and
absent from the freshly created dict, so each dict assignment appends. -/
def buildOptions : List Str → Nat → List (Nat × PollOptionRecord)
  | [], _ => []
  | label :: rest, n =>
      (n, { id := n, label := label, votes := 0 }) :: buildOptions rest (n + 1)

/-- `PollStore.create_poll`: fresh poll id, fresh option ids, status "open",
creation time = now, empty ledger. -/
def create_poll (s : Store) (now : Nat) (title : Str) (options : List Str) :
    Store × PollRecord :=
  let poll_id := s.nextId
  let option_records := buildOptions options (s.nextId + 1)
  let poll : PollRecord :=
    { id := poll_id
      title := title
      status := "open"
      created_at := now
      closed_at := none
      options := option_records
      voters := [] }
  ({ polls := dictInsert s.polls poll_id poll
     nextId := s.nextId + 1 + options.length }, poll)

/-- `PollStore.close_poll`: `KeyError` when the id is unknown; otherwise set
status to "closed" and overwrite `closed_at` with the current time. -/
def close_poll (s : Store) (now : Nat) (poll_id : Nat) :
    Except StoreError (Store × PollRecord) :=
  match dictGet s.polls poll_id with
  | none => .error .NotFound
  | some poll =>
      let poll' := { poll with status := "closed", closed_at := some now }
      .ok ({ s with polls := dictInsert s.polls poll_id poll' }, poll')

/-- `PollStore.vote`: normalize the voter name, then check, in this order,
poll existence, poll status, duplicate voter, option existence; on success
increment the option's counter and record the voter key. -/
def vote (s : Store) (poll_id : Nat) (voter_name : Str) (option_id : Nat) :
    Except StoreError (Store × PollRecord) :=
  let voter_key := lower (strip voter_name)
  match dictGet s.polls poll_id with
  | none => .error .NotFound
  | some poll =>
      if poll.status ≠ "open" then .error .AlreadyClosed
      else if dictContains poll.voters voter_key then .error .DuplicateVoter
      else
        match dictGet poll.options option_id with
        | none => .error .InvalidOption
        | some option =>
            let option' := { option with votes := option.votes + 1 }
            let poll' :=
              { poll with
                  options := dictInsert poll.options option_id option'
                  voters := dictInsert poll.voters voter_key option_id }
            .ok ({ s with polls := dictInsert s.polls poll_id poll' }, poll')

/-- `CreatePollRequest.validate_title`: trims, rejects empty. -/
def validate_title (value : Str) : Except StoreError Str :=
  let title := strip value
  if title = [] then .error .ValidationError else .ok title

/-- The `for option in cleaned` loop of `validate_options`: keep the first
occurrence of each lowercased label, tracking the `seen` set. -/
def uniqueLoop : List Str → List Str → List Str
  | [], _ => []
  | option :: rest, seen =>
      let lowered := lower option
      if lowered ∈ seen then uniqueLoop rest seen
      else option :: uniqueLoop rest (lowered :: seen)

/-- `CreatePollRequest.validate_options`: trim each entry, drop empties,
de-duplicate case-insensitively (first occurrence wins), require at least
two survivors. -/
def validate_options (value : List Str) : Except StoreError (List Str) :=
  let cleaned := (value.map strip).filter fun o => !o.isEmpty
  let unique := uniqueLoop cleaned []
  if unique.length < 2 then .error .ValidationError else .ok unique

/-- The create endpoint: pydantic runs both validators on the request body,
then the store creates the poll from the validated fields. -/
def create (s : Store) (now : Nat) (title : Str) (options : List Str) :
    Except StoreError (Store × PollRecord) :=
  match validate_title title with
  | .error e => .error e
  | .ok t =>
      match validate_options options with
      | .error e => .error e
      | .ok opts => .ok (create_poll s now t opts)

/-- One externally triggered store operation (the arguments a client and the
clock supply). -/
inductive Op where
  | create (now : Nat) (title : Str) (options : List Str)
  | vote (poll_id : Nat) (voter_name : Str) (option_id : Nat)
  | close (now : Nat) (poll_id : Nat)
deriving Repr, DecidableEq

/-- Apply one operation; a raised error leaves the store unchanged. -/
def applyOp (s : Store) : Op → Store
  | .create now title options =>
      match create s now title options with
      | .ok (s', _) => s'
      | .error _ => s
  | .vote pid v oid =>
      match vote s pid v oid with
      | .ok (s', _) => s'
      | .error _ => s
  | .close now pid =>
      match close_poll s now pid with
      | .ok (s', _) => s'
      | .error _ => s

/-- Run a sequence of operations. -/
def run (s : Store) : List Op → Store
  | [] => s
  | op :: ops => run (applyOp s op) ops

/-- Sum of the vote counters of an option dict. -/
def sumVotes (d : List (Nat × PollOptionRecord)) : Nat :=
  (d.map fun o => o.2.votes).sum

/-- Normalized voter key computed by `vote`. -/
def voterKey (voter_name : Str) : Str :=
  lower (strip voter_name)

/-- The C1 invariant: every stored poll tallies as many votes as it has
ledger entries. -/
def ledgerInv (s : Store) : Prop :=
  ∀ pid p, dictGet s.polls pid = some p → sumVotes p.options = p.voters.length

/-- Modelled from the spec's words (section 4.2 / claim C3) and compared
with the source's `validate_options`: "after trimming each option and
dropping empties, entries that are duplicates under case-insensitive
comparison are discarded with the first occurrence winning and
first-appearance order preserved". -/
def specDedupFuel : Nat → List Str → List Str
  | 0, _ => []
  | _ + 1, [] => []
  | n + 1, x :: xs =>
      x :: specDedupFuel n (xs.filter fun y => decide (lower y ≠ lower x))

/-- The first-occurrence case-insensitive de-duplication itself; the fuel is
always the list length, which the recursion never exhausts. -/
def specDedup (l : List Str) : List Str := specDedupFuel l.length l

/-- The surviving options of a create request, per the spec's words. -/
def specSurvivors (options : List Str) : List Str :=
  specDedup ((options.map strip).filter fun o => !o.isEmpty)

/-- One poll never loses an option, never loses a vote, and never reopens:
the C8 per-poll growth order. -/
def pollLe (p q : PollRecord) : Prop :=
  (∀ oid opt, dictGet p.options oid = some opt →
      ∃ opt', dictGet q.options oid = some opt' ∧
        opt.votes ≤ opt'.votes ∧ opt'.label = opt.label) ∧
  (p.status = "closed" → q.status = "closed")

/-- The C8 store growth order: no poll is ever removed, and each poll only
grows. -/
def storeLe (s t : Store) : Prop :=
  ∀ pid p, dictGet s.polls pid = some p →
    ∃ q, dictGet t.polls pid = some q ∧ pollLe p q

/-- Well-formedness: every stored poll id was drawn from the id counter. -/
def storeWF (s : Store) : Prop :=
  ∀ pid p, dictGet s.polls pid = some p → pid < s.nextId

/-! ### Concrete scenarios used by the witnesses -/

/-- The store after creating poll 0, title "T", options "A" and "B". -/
def sOpen : Store := run Store.empty [Op.create 0 (str "T") [str "A", str "B"]]

/-- Poll 0 of `sOpen`. -/
def pOpen : PollRecord :=
  { id := 0, title := str "T", status := "open", created_at := 0,
    closed_at := none,
    options := [(1, ⟨1, str "A", 0⟩), (2, ⟨2, str "B", 0⟩)], voters := [] }

/-- The store after Ann additionally votes for option 1 in poll 0. -/
def sVoted : Store := run Store.empty
  [Op.create 0 (str "T") [str "A", str "B"], Op.vote 0 (str "Ann") 1]

/-- Poll 0 of `sVoted`. -/
def pVoted : PollRecord :=
  { id := 0, title := str "T", status := "open", created_at := 0,
    closed_at := none,
    options := [(1, ⟨1, str "A", 1⟩), (2, ⟨2, str "B", 0⟩)],
    voters := [(str "ann", 1)] }

/-- The store after poll 0 of `sVoted` is additionally closed at time 7. -/
def sClosed : Store := run Store.empty
  [Op.create 0 (str "T") [str "A", str "B"], Op.vote 0 (str "Ann") 1,
   Op.close 7 0]

/-- Poll 0 of `sClosed`. -/
def pClosed : PollRecord :=
  { pVoted with status := "closed", closed_at := some 7 }

/-- A two-poll store whose second poll is newer and whose option labels are
supplied out of alphabetical order. -/
def sTwo : Store := run Store.empty
  [Op.create 3 (str "Old") [str "b", str "A"],
   Op.create 9 (str "New") [str "Z", str "y"]]

/-! ### Association-list (Python dict) lemmas -/

theorem dictGet_dictInsert {κ α : Type} [DecidableEq κ]
    (d : List (κ × α)) (k k' : κ) (v : α) :
    dictGet (dictInsert d k v) k' = if k = k' then some v else dictGet d k' := by
  induction d with
  | nil => simp [dictGet, dictInsert]
  | cons hd tl ih =>
      obtain ⟨a, b⟩ := hd
      by_cases hak : a = k
      · subst hak
        by_cases hkk : a = k'
        · subst hkk; simp [dictGet, dictInsert]
        · simp [dictGet, dictInsert, hkk]
      · by_cases hak' : a = k'
        · subst hak'
          have : ¬ k = a := fun h => hak h.symm
          simp [dictGet, dictInsert, hak, this]
        · simp [dictGet, dictInsert, hak, hak', ih]

theorem dictGet_dictInsert_self {κ α : Type} [DecidableEq κ]
    (d : List (κ × α)) (k : κ) (v : α) :
    dictGet (dictInsert d k v) k = some v := by
  simp [dictGet_dictInsert]

theorem dictGet_dictInsert_ne {κ α : Type} [DecidableEq κ]
    (d : List (κ × α)) {k k' : κ} (v : α) (h : k ≠ k') :
    dictGet (dictInsert d k v) k' = dictGet d k' := by
  simp [dictGet_dictInsert, h]

theorem length_dictInsert_of_not_contains {κ α : Type} [DecidableEq κ]
    {d : List (κ × α)} {k : κ} (v : α) (h : dictContains d k = false) :
    (dictInsert d k v).length = d.length + 1 := by
  induction d with
  | nil => simp [dictInsert]
  | cons hd tl ih =>
      obtain ⟨a, b⟩ := hd
      by_cases hak : a = k
      · subst hak
        simp [dictContains, dictGet] at h
      · have htl : dictContains tl k = false := by
          simpa [dictContains, dictGet, hak] using h
        simp [dictInsert, hak, ih htl]

theorem sumVotes_dictInsert {d : List (Nat × PollOptionRecord)} {k : Nat}
    {opt : PollOptionRecord} (opt' : PollOptionRecord)
    (h : dictGet d k = some opt) :
    sumVotes (dictInsert d k opt') + opt.votes = sumVotes d + opt'.votes := by
  induction d with
  | nil => simp [dictGet] at h
  | cons hd tl ih =>
      obtain ⟨a, b⟩ := hd
      by_cases hak : a = k
      · subst hak
        have hb : b = opt := by simpa [dictGet] using h
        subst hb
        simp [dictInsert, sumVotes]
        omega
      · have htl : dictGet tl k = some opt := by simpa [dictGet, hak] using h
        have := ih htl
        simp [dictInsert, hak, sumVotes] at this ⊢
        omega

/-! ### Inversion and branch lemmas for the store operations -/

theorem vote_ok_inv {s : Store} {pid : Nat} {v : Str} {oid : Nat}
    {s' : Store} {p' : PollRecord}
    (h : vote s pid v oid = Except.ok (s', p')) :
    ∃ p opt, dictGet s.polls pid = some p ∧ p.status = "open" ∧
      dictContains p.voters (voterKey v) = false ∧
      dictGet p.options oid = some opt ∧
      p' = { p with
              options := dictInsert p.options oid { opt with votes := opt.votes + 1 }
              voters := dictInsert p.voters (voterKey v) oid } ∧
      s' = { s with polls := dictInsert s.polls pid p' } := by
  unfold vote at h
  split at h
  · exact absurd h (by simp)
  · rename_i poll hg
    split at h
    · exact absurd h (by simp)
    · rename_i hopen
      split at h
      · simp only [] at h
        split at h <;> simp at h
      · rename_i option hopt
        simp only [] at h
        split at h
        · simp at h
        · rename_i hdup
          obtain ⟨hs, hp⟩ := by simpa using h
          refine ⟨poll, option, hg, not_not.mp hopen, by simpa [voterKey] using hdup,
            hopt, ?_, ?_⟩
          · rw [← hp]; simp [voterKey]
          · rw [← hs, ← hp]

theorem close_ok_inv {s : Store} {now pid : Nat} {s' : Store} {p' : PollRecord}
    (h : close_poll s now pid = Except.ok (s', p')) :
    ∃ p, dictGet s.polls pid = some p ∧
      p' = { p with status := "closed", closed_at := some now } ∧
      s' = { s with polls := dictInsert s.polls pid p' } := by
  unfold close_poll at h
  split at h
  · exact absurd h (by simp)
  · rename_i poll hg
    obtain ⟨hs, hp⟩ := by simpa using h
    exact ⟨poll, hg, hp.symm, by rw [← hs, ← hp]⟩

theorem vote_not_found {s : Store} {pid : Nat} {v : Str} {oid : Nat}
    (h : dictGet s.polls pid = none) :
    vote s pid v oid = Except.error StoreError.NotFound := by
  unfold vote; rw [h]

theorem vote_already_closed {s : Store} {pid : Nat} {v : Str} {oid : Nat}
    {p : PollRecord} (h : dictGet s.polls pid = some p)
    (hst : p.status ≠ "open") :
    vote s pid v oid = Except.error StoreError.AlreadyClosed := by
  unfold vote; rw [h]; simp [hst]

theorem vote_duplicate {s : Store} {pid : Nat} {v : Str} {oid : Nat}
    {p : PollRecord} (h : dictGet s.polls pid = some p)
    (hst : p.status = "open")
    (hd : dictContains p.voters (voterKey v) = true) :
    vote s pid v oid = Except.error StoreError.DuplicateVoter := by
  unfold vote; rw [h]
  simp only [voterKey] at hd
  simp [hst, hd]

theorem vote_invalid_option {s : Store} {pid : Nat} {v : Str} {oid : Nat}
    {p : PollRecord} (h : dictGet s.polls pid = some p)
    (hst : p.status = "open")
    (hd : dictContains p.voters (voterKey v) = false)
    (ho : dictGet p.options oid = none) :
    vote s pid v oid = Except.error StoreError.InvalidOption := by
  unfold vote; rw [h]
  simp only [voterKey] at hd
  simp [hst, hd, ho]

theorem close_poll_not_found {s : Store} {now pid : Nat}
    (h : dictGet s.polls pid = none) :
    close_poll s now pid = Except.error StoreError.NotFound := by
  unfold close_poll; rw [h]

theorem close_poll_of_mem {s : Store} {now pid : Nat} {p : PollRecord}
    (h : dictGet s.polls pid = some p) :
    close_poll s now pid =
      Except.ok
        ({ s with polls := dictInsert s.polls pid ({ p with status := "closed", closed_at := some now }) },
         { p with status := "closed", closed_at := some now }) := by
  unfold close_poll; rw [h]

theorem create_ok_inv {s : Store} {now : Nat} {title : Str}
    {options : List Str} {s' : Store} {p' : PollRecord}
    (h : create s now title options = Except.ok (s', p')) :
    ∃ t opts,
      p' = { id := s.nextId, title := t, status := "open", created_at := now,
             closed_at := none, options := buildOptions opts (s.nextId + 1),
             voters := [] } ∧
      s' = { polls := dictInsert s.polls s.nextId p'
             nextId := s.nextId + 1 + opts.length } := by
  unfold create at h
  split at h
  · simp at h
  · rename_i t ht
    split at h
    · simp at h
    · rename_i opts hopts
      obtain ⟨hs, hp⟩ := by simpa [create_poll] using h
      exact ⟨t, opts, hp.symm, by rw [← hs, ← hp]⟩

/-! ### C1: vote counts always match the ledger size -/

theorem sumVotes_buildOptions (labels : List Str) (n : Nat) :
    sumVotes (buildOptions labels n) = 0 := by
  induction labels generalizing n with
  | nil => simp [buildOptions, sumVotes]
  | cons l ls ih => simp [buildOptions, sumVotes] at ih ⊢; exact ih _

theorem ledgerInv_empty : ledgerInv Store.empty := by
  intro pid p h
  simp [Store.empty, dictGet] at h

theorem ledgerInv_applyOp {s : Store} (h : ledgerInv s) (op : Op) :
    ledgerInv (applyOp s op) := by
  cases op with
  | create now title options =>
      simp only [applyOp]
      split
      · rename_i s' p' hc
        obtain ⟨t, opts, hp, hs⟩ := create_ok_inv hc
        intro pid2 p2 h2
        rw [hs] at h2
        simp only [dictGet_dictInsert] at h2
        by_cases hne : s.nextId = pid2
        · simp only [if_pos hne] at h2
          obtain rfl : p' = p2 := by simpa using h2
          rw [hp]
          simp [sumVotes_buildOptions]
        · rw [if_neg hne] at h2
          exact h pid2 p2 h2
      · exact h
  | vote pid v oid =>
      simp only [applyOp]
      split
      · rename_i s' p' hc
        obtain ⟨p, opt, hg, hopen, hdup, hopt, hp, hs⟩ := vote_ok_inv hc
        intro pid2 p2 h2
        rw [hs] at h2
        simp only [dictGet_dictInsert] at h2
        by_cases hne : pid = pid2
        · simp only [if_pos hne] at h2
          obtain rfl : p' = p2 := by simpa using h2
          have hsum := sumVotes_dictInsert
            { opt with votes := opt.votes + 1 } hopt
          have hlen := length_dictInsert_of_not_contains oid hdup
          have hbase := h pid p hg
          rw [hp]
          simp only at hsum hlen ⊢
          omega
        · rw [if_neg hne] at h2
          exact h pid2 p2 h2
      · exact h
  | close now pid =>
      simp only [applyOp]
      split
      · rename_i s' p' hc
        obtain ⟨p, hg, hp, hs⟩ := close_ok_inv hc
        intro pid2 p2 h2
        rw [hs] at h2
        simp only [dictGet_dictInsert] at h2
        by_cases hne : pid = pid2
        · simp only [if_pos hne] at h2
          obtain rfl : p' = p2 := by simpa using h2
          have hbase := h pid p hg
          rw [hp]
          simpa using hbase
        · rw [if_neg hne] at h2
          exact h pid2 p2 h2
      · exact h

theorem ledgerInv_run {s : Store} (h : ledgerInv s) (ops : List Op) :
    ledgerInv (run s ops) := by
  induction ops generalizing s with
  | nil => exact h
  | cons op ops ih => exact ih (ledgerInv_applyOp h op)

/-- C1: at every observable point — after any sequence of create, vote and
close operations starting from the empty store — every poll's option vote
counts sum to the size of its voter ledger. -/
theorem vote_counts_match_ledger (ops : List Op) (pid : Nat) (p : PollRecord)
    (h : dictGet (run Store.empty ops).polls pid = some p) :
    sumVotes p.options = p.voters.length :=
  ledgerInv_run ledgerInv_empty ops pid p h

/-- Witness for C1: evaluated on the concrete one-vote scenario. -/
theorem vote_counts_match_ledger_witness :
    sumVotes pVoted.options = pVoted.voters.length :=
  vote_counts_match_ledger
    [Op.create 0 (str "T") [str "A", str "B"], Op.vote 0 (str "Ann") 1]
    0 pVoted (by rfl)

/-! ### C2: one vote per normalized voter name -/

/-- C2: after a successful vote, a second vote on the same poll by any voter
name that trims and lowercases to the same key fails with `DuplicateVoter`
(the failed call raises before mutating, so it changes nothing). -/
theorem second_vote_same_key_rejected (s : Store) (pid : Nat) (v1 v2 : Str)
    (oid1 oid2 : Nat) (s' : Store) (p' : PollRecord)
    (h1 : vote s pid v1 oid1 = Except.ok (s', p'))
    (h2 : voterKey v2 = voterKey v1) :
    vote s' pid v2 oid2 = Except.error StoreError.DuplicateVoter := by
  obtain ⟨p, opt, hg, hopen, hdup, hopt, hp, hs⟩ := vote_ok_inv h1
  have hg' : dictGet s'.polls pid = some p' := by
    rw [hs]; exact dictGet_dictInsert_self _ _ _
  have hst : p'.status = "open" := by rw [hp]; exact hopen
  have hdc : dictContains p'.voters (voterKey v2) = true := by
    rw [hp, h2]
    simp [dictContains, dictGet_dictInsert_self]
  exact vote_duplicate hg' hst hdc

/-- Witness for C2: "Ann" votes, then " ANN " is turned away. -/
theorem second_vote_same_key_rejected_witness :
    vote sVoted 0 (str " ANN ") 2 = Except.error StoreError.DuplicateVoter :=
  second_vote_same_key_rejected sOpen 0 (str "Ann") (str " ANN ") 1 2
    sVoted pVoted (by rfl) (by rfl)

/-! ### C7: close fails on unknown ids and closes known ones -/

/-- C7: closing an unknown poll id fails with `NotFound` (and, raising
before any mutation, leaves the store unchanged); closing a known poll sets
its status to "closed" and its closing timestamp to the current time and
returns the updated poll. -/
theorem close_unknown_fails_known_closes (s : Store) (now pid : Nat) :
    (dictGet s.polls pid = none →
        close_poll s now pid = Except.error StoreError.NotFound)
  ∧ (∀ p, dictGet s.polls pid = some p →
        close_poll s now pid =
          Except.ok
            ({ s with polls := dictInsert s.polls pid ({ p with status := "closed", closed_at := some now }) },
             { p with status := "closed", closed_at := some now })) :=
  ⟨fun h => close_poll_not_found h, fun _ hp => close_poll_of_mem hp⟩

/-- Witness for C7: id 99 is unknown; closing poll 0 at time 7 closes it. -/
theorem close_unknown_fails_known_closes_witness :
    close_poll sVoted 7 99 = Except.error StoreError.NotFound ∧
    close_poll sVoted 7 0 =
      Except.ok ({ sVoted with polls := dictInsert sVoted.polls 0 pClosed },
                 pClosed) :=
  ⟨(close_unknown_fails_known_closes sVoted 7 99).1 (by rfl),
   (close_unknown_fails_known_closes sVoted 7 0).2 pVoted (by rfl)⟩

/-! ### C5: re-closing a closed poll -/

/-- C5 as stated is false: re-closing an already-closed poll answers without
error, but it overwrites the closing timestamp instead of leaving it
unchanged — closing `sClosed` (closed at 7) again at time 9 yields
`closed_at = some 9`. -/
theorem reclose_changes_timestamp :
    dictGet sClosed.polls 0 = some pClosed ∧ pClosed.closed_at = some 7 ∧
    close_poll sClosed 9 0 =
      Except.ok
        ({ sClosed with polls := dictInsert sClosed.polls 0 ({ pClosed with closed_at := some 9 }) },
         { pClosed with closed_at := some 9 }) ∧
    ({ pClosed with closed_at := some 9 } : PollRecord).closed_at ≠
      pClosed.closed_at :=
  ⟨rfl, rfl, rfl, by decide⟩

/-- C5 amended: re-closing an already-closed poll succeeds and keeps the
status, title, options, ledger and creation time, but overwrites the closing
timestamp with the current time. -/
theorem reclose_keeps_all_but_timestamp (s : Store) (now pid : Nat)
    (p : PollRecord) (h : dictGet s.polls pid = some p)
    (hcl : p.status = "closed") :
    close_poll s now pid =
      Except.ok
        ({ s with polls := dictInsert s.polls pid ({ p with closed_at := some now }) },
         { p with closed_at := some now }) := by
  have hcp : close_poll s now pid =
      Except.ok
        ({ s with polls := dictInsert s.polls pid ({ p with status := "closed", closed_at := some now }) },
         { p with status := "closed", closed_at := some now }) := close_poll_of_mem h
  have hrec : ({ p with status := "closed", closed_at := some now } : PollRecord)
      = { p with closed_at := some now } := by
    cases p
    simp_all
  rw [hcp, hrec]

/-- Witness for the amended C5 at the concrete closed store. -/
theorem reclose_keeps_all_but_timestamp_witness :
    close_poll sClosed 9 0 =
      Except.ok
        ({ sClosed with polls := dictInsert sClosed.polls 0 ({ pClosed with closed_at := some 9 }) },
         { pClosed with closed_at := some 9 }) :=
  reclose_keeps_all_but_timestamp sClosed 9 0 pClosed (by rfl) (by rfl)

/-! ### C9: precedence of the vote error checks -/

/-- C9: `vote` checks its preconditions in a fixed order — existence, then
status, then duplicate voter, then option validity — so when several fail
at once the earlier error wins. -/
theorem vote_error_precedence (s : Store) (pid : Nat) (v : Str) (oid : Nat) :
    (dictGet s.polls pid = none →
        vote s pid v oid = Except.error StoreError.NotFound)
  ∧ (∀ p, dictGet s.polls pid = some p → p.status ≠ "open" →
        vote s pid v oid = Except.error StoreError.AlreadyClosed)
  ∧ (∀ p, dictGet s.polls pid = some p → p.status = "open" →
        dictContains p.voters (voterKey v) = true →
        vote s pid v oid = Except.error StoreError.DuplicateVoter)
  ∧ (∀ p, dictGet s.polls pid = some p → p.status = "open" →
        dictContains p.voters (voterKey v) = false →
        dictGet p.options oid = none →
        vote s pid v oid = Except.error StoreError.InvalidOption) :=
  ⟨fun h => vote_not_found h,
   fun _ h hst => vote_already_closed h hst,
   fun _ h hst hd => vote_duplicate h hst hd,
   fun _ h hst hd ho => vote_invalid_option h hst hd ho⟩

/-- Witness for C9: a duplicate voter citing a bogus option on a closed poll
gets `AlreadyClosed`; the same on an open poll gets `DuplicateVoter`. -/
theorem vote_error_precedence_witness :
    vote sClosed 0 (str "Ann") 99 = Except.error StoreError.AlreadyClosed ∧
    vote sVoted 0 (str " ANN ") 99 = Except.error StoreError.DuplicateVoter :=
  ⟨(vote_error_precedence sClosed 0 (str "Ann") 99).2.1 pClosed
      (by rfl) (by decide),
   (vote_error_precedence sVoted 0 (str " ANN ") 99).2.2.1 pVoted
      (by rfl) (by rfl) (by rfl)⟩

/-! ### C10: the exact footprint of a successful vote -/

/-- C10: a successful vote adds one to the chosen option's counter and adds
the normalized voter key to the ledger; the poll's id, title, status,
timestamps, option membership and labels, all other options' counters, all
other ledger entries, and every other poll are unchanged. -/
theorem vote_frame (s : Store) (pid : Nat) (v : Str) (oid : Nat) (s' : Store)
    (p' p : PollRecord) (opt : PollOptionRecord)
    (h : vote s pid v oid = Except.ok (s', p'))
    (hp : dictGet s.polls pid = some p)
    (hopt : dictGet p.options oid = some opt) :
    dictGet s'.polls pid = some p' ∧
    dictGet p'.options oid = some { opt with votes := opt.votes + 1 } ∧
    dictGet p'.voters (voterKey v) = some oid ∧
    dictContains p.voters (voterKey v) = false ∧
    p'.id = p.id ∧ p'.title = p.title ∧ p'.status = p.status ∧
    p'.created_at = p.created_at ∧ p'.closed_at = p.closed_at ∧
    (∀ oid2, oid2 ≠ oid → dictGet p'.options oid2 = dictGet p.options oid2) ∧
    (∀ oid2, dictContains p'.options oid2 = dictContains p.options oid2) ∧
    (∀ k, k ≠ voterKey v → dictGet p'.voters k = dictGet p.voters k) ∧
    (∀ pid2, pid2 ≠ pid → dictGet s'.polls pid2 = dictGet s.polls pid2) ∧
    s'.nextId = s.nextId := by
  obtain ⟨p0, opt0, hg0, hopen, hdup, hopt0, hpeq, hseq⟩ := vote_ok_inv h
  obtain rfl : p0 = p := by rw [hg0] at hp; exact Option.some.inj hp
  obtain rfl : opt0 = opt := by rw [hopt0] at hopt; exact Option.some.inj hopt
  subst hpeq hseq
  refine ⟨dictGet_dictInsert_self _ _ _, ?_, ?_, hdup, rfl, rfl, rfl, rfl, rfl,
    ?_, ?_, ?_, ?_, rfl⟩
  · simpa using dictGet_dictInsert_self p0.options oid _
  · simpa using dictGet_dictInsert_self p0.voters (voterKey v) oid
  · intro oid2 hne
    simpa using dictGet_dictInsert_ne p0.options _ (fun hx => hne hx.symm)
  · intro oid2
    by_cases hx : oid2 = oid
    · subst hx
      simp [dictContains, dictGet_dictInsert_self, hopt]
    · simp only [dictContains]
      rw [dictGet_dictInsert_ne p0.options _ (fun hy => hx hy.symm)]
  · intro k hne
    simpa using dictGet_dictInsert_ne p0.voters _ (fun hx => hne hx.symm)
  · intro pid2 hne
    simpa using dictGet_dictInsert_ne s.polls _ (fun hx => hne hx.symm)

/-- Witness for C10: Ann's vote on `sOpen`, with the untouched-other-parts
clauses sampled at option 2 and poll id 5. -/
theorem vote_frame_witness :
    dictGet sVoted.polls 0 = some pVoted ∧
    dictGet pVoted.options 1 = some ⟨1, str "A", 1⟩ ∧
    dictGet pVoted.voters (voterKey (str "Ann")) = some 1 ∧
    dictGet pVoted.options 2 = dictGet pOpen.options 2 ∧
    dictGet sVoted.polls 5 = dictGet sOpen.polls 5 := by
  obtain ⟨h1, h2, h3, _, _, _, _, _, _, hopts, _, _, hpolls, _⟩ :=
    vote_frame sOpen 0 (str "Ann") 1 sVoted pVoted pOpen ⟨1, str "A", 0⟩
      (by rfl) (by rfl) (by rfl)
  exact ⟨h1, h2, h3, hopts 2 (by decide), hpolls 5 (by decide)⟩

/-! ### C3: create validates and de-duplicates as the spec says -/

theorem specDedupFuel_congr (n : Nat) :
    ∀ (m : Nat) (l : List Str), l.length ≤ n → l.length ≤ m →
      specDedupFuel n l = specDedupFuel m l := by
  induction n with
  | zero =>
      intro m l hn _
      have : l = [] := List.length_eq_zero.mp (Nat.le_zero.mp hn)
      subst this
      cases m <;> simp [specDedupFuel]
  | succ n ih =>
      intro m l hn hm
      cases l with
      | nil => cases m <;> simp [specDedupFuel]
      | cons x xs =>
          cases m with
          | zero => simp at hm
          | succ m =>
              simp only [specDedupFuel, List.cons.injEq, true_and]
              have hf := List.length_filter_le
                (fun y => decide (lower y ≠ lower x)) xs
              simp only [List.length_cons] at hn hm
              exact ih m _ (by omega) (by omega)

theorem specDedup_nil : specDedup [] = [] := rfl

theorem specDedup_cons (x : Str) (xs : List Str) :
    specDedup (x :: xs) =
      x :: specDedup (xs.filter fun y => decide (lower y ≠ lower x)) := by
  unfold specDedup
  simp only [List.length_cons, specDedupFuel, List.cons.injEq, true_and]
  have hf := List.length_filter_le (fun y => decide (lower y ≠ lower x)) xs
  exact specDedupFuel_congr xs.length _ _ (by omega) (by omega)

theorem uniqueLoop_eq_specDedup (l : List Str) :
    ∀ seen : List Str,
      uniqueLoop l seen = specDedup (l.filter fun y => decide (lower y ∉ seen)) := by
  induction l with
  | nil => intro seen; simp [uniqueLoop, specDedup_nil]
  | cons x xs ih =>
      intro seen
      by_cases hx : lower x ∈ seen
      · have hxf : (decide (lower x ∉ seen)) = false := by simpa using hx
        simp only [uniqueLoop, hx, if_true, List.filter_cons, hxf,
          Bool.false_eq_true, if_false]
        exact ih seen
      · have hxt : (decide (lower x ∉ seen)) = true := by simpa using hx
        have hpred :
            (fun y => decide (lower y ≠ lower x) && decide (lower y ∉ seen))
              = (fun y => decide (lower y ∉ (lower x :: seen))) := by
          funext a
          by_cases h1 : lower a = lower x <;> by_cases h2 : lower a ∈ seen <;>
            simp [h1, h2]
        calc uniqueLoop (x :: xs) seen
            = x :: uniqueLoop xs (lower x :: seen) := by
              simp [uniqueLoop, hx]
          _ = x :: specDedup
                (xs.filter fun y => decide (lower y ∉ (lower x :: seen))) := by
              rw [ih]
          _ = x :: specDedup
                ((xs.filter fun y => decide (lower y ∉ seen)).filter
                  fun y => decide (lower y ≠ lower x)) := by
              rw [List.filter_filter, hpred]
          _ = specDedup ((x :: xs).filter fun y => decide (lower y ∉ seen)) := by
              rw [List.filter_cons, hxt]
              simp [specDedup_cons]

theorem uniqueLoop_no_seen (l : List Str) : uniqueLoop l [] = specDedup l := by
  have h := uniqueLoop_eq_specDedup l []
  simpa using h

/-- The source's option validator agrees with the spec-worded survivor
computation. -/
theorem validate_options_eq_spec (value : List Str) :
    validate_options value =
      if (specSurvivors value).length < 2 then
        Except.error StoreError.ValidationError
      else Except.ok (specSurvivors value) := by
  simp only [validate_options, specSurvivors, uniqueLoop_no_seen]

theorem buildOptions_labels (ls : List Str) (n : Nat) :
    (buildOptions ls n).map (fun o => o.2.label) = ls := by
  induction ls generalizing n with
  | nil => simp [buildOptions]
  | cons l rest ih => simp [buildOptions, ih]

/-- C3: a create call fails with `ValidationError` exactly when the trimmed
title is empty or fewer than two options survive trimming, empty-dropping
and case-insensitive first-occurrence de-duplication; otherwise the created
poll carries exactly the surviving options in first-appearance order, status
"open", an empty voter ledger, no closing timestamp, and the trimmed
title. -/
theorem create_matches_spec (s : Store) (now : Nat) (title : Str)
    (options : List Str) :
    ((strip title = [] ∨ (specSurvivors options).length < 2) →
        create s now title options = Except.error StoreError.ValidationError)
  ∧ (strip title ≠ [] → 2 ≤ (specSurvivors options).length →
      ∃ s' p', create s now title options = Except.ok (s', p') ∧
        p'.options.map (fun o => o.2.label) = specSurvivors options ∧
        p'.title = strip title ∧ p'.status = "open" ∧ p'.voters = [] ∧
        p'.closed_at = none ∧ p'.created_at = now) := by
  have hv := validate_options_eq_spec options
  constructor
  · rintro (ht | ho)
    · simp [create, validate_title, ht]
    · by_cases ht : strip title = []
      · simp [create, validate_title, ht]
      · simp [create, validate_title, ht, hv, ho]
  · intro ht hlen
    have hnlt : ¬ (specSurvivors options).length < 2 := by omega
    have hcr : create s now title options =
        Except.ok (create_poll s now (strip title) (specSurvivors options)) := by
      simp [create, validate_title, ht, hv, hnlt]
    refine ⟨(create_poll s now (strip title) (specSurvivors options)).1,
      (create_poll s now (strip title) (specSurvivors options)).2,
      by simpa using hcr, ?_, ?_, ?_, ?_, ?_, ?_⟩ <;>
      simp [create_poll, buildOptions_labels]

/-- Witness for C3 at the spec's own example: title " Lunch ", options
["Red", "red", "Blue"] — exactly "Red" and "Blue" survive. -/
theorem create_matches_spec_witness :
    strip (str " Lunch ") ≠ [] ∧
    2 ≤ (specSurvivors [str "Red", str "red", str "Blue"]).length ∧
    (∃ s' p', create Store.empty 0 (str " Lunch ")
        [str "Red", str "red", str "Blue"] = Except.ok (s', p') ∧
      p'.options.map (fun o => o.2.label) =
        specSurvivors [str "Red", str "red", str "Blue"] ∧
      p'.title = strip (str " Lunch ") ∧ p'.status = "open" ∧
      p'.voters = [] ∧ p'.closed_at = none ∧ p'.created_at = 0) :=
  ⟨by decide, by decide,
   (create_matches_spec Store.empty 0 (str " Lunch ")
      [str "Red", str "red", str "Blue"]).2 (by decide) (by decide)⟩

/-! ### C6: list() is pure and returns sorted views -/

theorem strLe_total (a : Str) : ∀ b : Str, strLe a b = true ∨ strLe b a = true := by
  induction a with
  | nil => intro b; exact Or.inl rfl
  | cons a as ih =>
      intro b
      cases b with
      | nil => exact Or.inr rfl
      | cons b bs =>
          by_cases h1 : a.toNat < b.toNat
          · exact Or.inl (by simp [strLe, h1])
          · by_cases h2 : b.toNat < a.toNat
            · exact Or.inr (by simp [strLe, h2])
            · cases ih bs with
              | inl h => exact Or.inl (by simp [strLe, h1, h2, h])
              | inr h => exact Or.inr (by simp [strLe, h1, h2, h])

theorem strLe_trans {a : Str} :
    ∀ {b c : Str}, strLe a b = true → strLe b c = true → strLe a c = true := by
  induction a with
  | nil => intro b c _ _; rfl
  | cons a as ih =>
      intro b c h1 h2
      cases b with
      | nil => simp [strLe] at h1
      | cons b bs =>
          cases c with
          | nil => simp [strLe] at h2
          | cons c cs =>
              simp only [strLe] at h1 h2 ⊢
              split at h1
              · rename_i hab
                split at h2
                · rename_i hbc
                  have hac : a.toNat < c.toNat := by omega
                  simp [hac]
                · split at h2
                  · simp at h2
                  · rename_i hbc hcb
                    have hac : a.toNat < c.toNat := by omega
                    simp [hac]
              · split at h1
                · simp at h1
                · rename_i hab hba
                  split at h2
                  · rename_i hbc
                    have hac : a.toNat < c.toNat := by omega
                    simp [hac]
                  · split at h2
                    · simp at h2
                    · rename_i hbc hcb
                      have h3 : ¬ a.toNat < c.toNat := by omega
                      have h4 : ¬ c.toNat < a.toNat := by omega
                      simp only [h3, if_false, h4]
                      exact ih h1 h2

/-- C6: `all_polls` is a pure, total function of the store — its type shows
it can neither fail nor mutate the store — and for every store state it
returns the polls sorted by creation time descending, each poll's options
sorted by lowercased label ascending, whatever order things were created
in. -/
theorem list_sorted_views (s : Store) :
    List.Sorted pollViewNewestFirst (all_polls s) ∧
    ∀ r ∈ all_polls s, List.Sorted optionSortRel r.options := by
  constructor
  · haveI : IsTotal PollRecord pollSortRel := ⟨fun a b => le_total _ _⟩
    haveI : IsTrans PollRecord pollSortRel :=
      ⟨fun _ _ _ h1 h2 => le_trans h2 h1⟩
    have hs := List.sorted_insertionSort pollSortRel (s.polls.map Prod.snd)
    unfold all_polls
    exact List.Pairwise.map to_response (fun a b hab => hab) hs
  · intro r hr
    unfold all_polls at hr
    rw [List.mem_map] at hr
    obtain ⟨rec, _, rfl⟩ := hr
    haveI : IsTotal PollOption optionSortRel := ⟨fun a b => strLe_total _ _⟩
    haveI : IsTrans PollOption optionSortRel :=
      ⟨fun _ _ _ h1 h2 => strLe_trans h1 h2⟩
    exact List.sorted_insertionSort optionSortRel _

/-- Witness for C6 on `sTwo`: newest poll first, and the newest poll's
options come back in ascending case-insensitive label order ("y" before
"Z") although "Z" was supplied first. -/
theorem list_sorted_views_witness :
    List.Sorted pollViewNewestFirst (all_polls sTwo) ∧
    List.Sorted optionSortRel
      ({ id := 3, title := str "New", status := "open", created_at := 9,
         closed_at := none,
         options := [⟨5, str "y", 0⟩, ⟨4, str "Z", 0⟩] } : PollResponse).options :=
  ⟨(list_sorted_views sTwo).1,
   (list_sorted_views sTwo).2 _ (by decide)⟩

/-! ### C8: polls, options, votes and closedness are never lost -/

theorem storeWF_empty : storeWF Store.empty := by
  intro pid p h
  simp [Store.empty, dictGet] at h

theorem storeWF_applyOp {s : Store} (h : storeWF s) (op : Op) :
    storeWF (applyOp s op) := by
  cases op with
  | create now title options =>
      simp only [applyOp]
      split
      · rename_i s' p' hc
        obtain ⟨t, opts, hp, hs⟩ := create_ok_inv hc
        intro pid2 p2 h2
        rw [hs] at h2 ⊢
        simp only [dictGet_dictInsert] at h2
        by_cases hne : s.nextId = pid2
        · subst hne; simp only; omega
        · rw [if_neg hne] at h2
          have := h pid2 p2 h2
          simp only
          omega
      · exact h
  | vote pid v oid =>
      simp only [applyOp]
      split
      · rename_i s' p' hc
        obtain ⟨p, opt, hg, _, _, _, _, hseq⟩ := vote_ok_inv hc
        intro pid2 p2 h2
        rw [hseq] at h2 ⊢
        simp only [dictGet_dictInsert] at h2
        simp only
        by_cases hne : pid = pid2
        · subst hne; exact h pid p hg
        · rw [if_neg hne] at h2
          exact h pid2 p2 h2
      · exact h
  | close now pid =>
      simp only [applyOp]
      split
      · rename_i s' p' hc
        obtain ⟨p, hg, _, hseq⟩ := close_ok_inv hc
        intro pid2 p2 h2
        rw [hseq] at h2 ⊢
        simp only [dictGet_dictInsert] at h2
        simp only
        by_cases hne : pid = pid2
        · subst hne; exact h pid p hg
        · rw [if_neg hne] at h2
          exact h pid2 p2 h2
      · exact h

theorem storeWF_run {s : Store} (h : storeWF s) (ops : List Op) :
    storeWF (run s ops) := by
  induction ops generalizing s with
  | nil => exact h
  | cons op ops ih => exact ih (storeWF_applyOp h op)

theorem pollLe_refl (p : PollRecord) : pollLe p p :=
  ⟨fun _ opt h => ⟨opt, h, le_refl _, rfl⟩, fun h => h⟩

theorem storeLe_applyOp {s : Store} (hwf : storeWF s) (op : Op) :
    storeLe s (applyOp s op) := by
  cases op with
  | create now title options =>
      simp only [applyOp]
      split
      · rename_i s' p' hc
        obtain ⟨t, opts, hp, hs⟩ := create_ok_inv hc
        intro pid2 p2 h2
        refine ⟨p2, ?_, pollLe_refl p2⟩
        have hlt := hwf pid2 p2 h2
        have hne : s.nextId ≠ pid2 := by omega
        rw [hs]
        simp only
        rw [dictGet_dictInsert_ne _ _ hne]
        exact h2
      · intro pid2 p2 h2; exact ⟨p2, h2, pollLe_refl p2⟩
  | vote pid v oid =>
      simp only [applyOp]
      split
      · rename_i s' p' hc
        obtain ⟨p, opt, hg, hopen, hdup, hopt, hpeq, hseq⟩ := vote_ok_inv hc
        intro pid2 p2 h2
        by_cases hne : pid = pid2
        · subst hne
          obtain rfl : p2 = p := by
            rw [hg] at h2; exact (Option.some.inj h2).symm
          refine ⟨p', ?_, ?_, ?_⟩
          · rw [hseq]
            simp only
            exact dictGet_dictInsert_self _ _ _
          · intro oid2 opt2 hopt2
            rw [hpeq]
            by_cases ho : oid = oid2
            · subst ho
              obtain rfl : opt2 = opt := by
                rw [hopt] at hopt2; exact (Option.some.inj hopt2).symm
              refine ⟨{ opt2 with votes := opt2.votes + 1 }, ?_, Nat.le_succ _, rfl⟩
              simp only
              exact dictGet_dictInsert_self _ _ _
            · refine ⟨opt2, ?_, le_refl _, rfl⟩
              simp only
              rw [dictGet_dictInsert_ne _ _ ho]
              exact hopt2
          · intro hcl
            rw [hopen] at hcl
            exact absurd hcl (by decide)
        · refine ⟨p2, ?_, pollLe_refl p2⟩
          rw [hseq]
          simp only
          rw [dictGet_dictInsert_ne _ _ hne]
          exact h2
      · intro pid2 p2 h2; exact ⟨p2, h2, pollLe_refl p2⟩
  | close now pid =>
      simp only [applyOp]
      split
      · rename_i s' p' hc
        obtain ⟨p, hg, hpeq, hseq⟩ := close_ok_inv hc
        intro pid2 p2 h2
        by_cases hne : pid = pid2
        · subst hne
          obtain rfl : p2 = p := by
            rw [hg] at h2; exact (Option.some.inj h2).symm
          refine ⟨p', ?_, ?_, ?_⟩
          · rw [hseq]
            simp only
            exact dictGet_dictInsert_self _ _ _
          · intro oid2 opt2 hopt2
            rw [hpeq]
            exact ⟨opt2, hopt2, le_refl _, rfl⟩
          · intro _
            rw [hpeq]
        · refine ⟨p2, ?_, pollLe_refl p2⟩
          rw [hseq]
          simp only
          rw [dictGet_dictInsert_ne _ _ hne]
          exact h2
      · intro pid2 p2 h2; exact ⟨p2, h2, pollLe_refl p2⟩

/-- C8: at any reachable store state, no operation removes a poll, removes
an option, decreases an option's vote count, or changes a closed poll's
status back to open. -/
theorem ops_monotone (ops : List Op) (op : Op) (pid : Nat) (p : PollRecord)
    (h : dictGet (run Store.empty ops).polls pid = some p) :
    ∃ q, dictGet (applyOp (run Store.empty ops) op).polls pid = some q ∧
      pollLe p q :=
  storeLe_applyOp (storeWF_run storeWF_empty ops) op pid p h

/-- Witness for C8: closing the voted poll keeps it, its options, its
tallies and (once closed) its closedness. -/
theorem ops_monotone_witness :
    ∃ q, dictGet (applyOp (run Store.empty
        [Op.create 0 (str "T") [str "A", str "B"], Op.vote 0 (str "Ann") 1])
        (Op.close 7 0)).polls 0 = some q ∧ pollLe pVoted q :=
  ops_monotone [Op.create 0 (str "T") [str "A", str "B"],
    Op.vote 0 (str "Ann") 1] (Op.close 7 0) 0 pVoted (by rfl)

/-! ### C4: a closed poll rejects votes and stays frozen -/

theorem closed_frozen_applyOp {s : Store} {pid : Nat} {p : PollRecord}
    (hwf : storeWF s) (hg : dictGet s.polls pid = some p)
    (hcl : p.status = "closed") (op : Op) :
    ∃ q, dictGet (applyOp s op).polls pid = some q ∧
      q.options = p.options ∧ q.voters = p.voters ∧ q.status = "closed" := by
  cases op with
  | create now title options =>
      simp only [applyOp]
      split
      · rename_i s' p' hc
        obtain ⟨t, opts, hp, hs⟩ := create_ok_inv hc
        have hlt := hwf pid p hg
        have hne : s.nextId ≠ pid := by omega
        refine ⟨p, ?_, rfl, rfl, hcl⟩
        rw [hs]
        simp only
        rw [dictGet_dictInsert_ne _ _ hne]
        exact hg
      · exact ⟨p, hg, rfl, rfl, hcl⟩
  | vote pid2 v oid =>
      simp only [applyOp]
      split
      · rename_i s' p' hc
        obtain ⟨p2, opt, hg2, hopen, _, _, _, hseq⟩ := vote_ok_inv hc
        by_cases hne : pid2 = pid
        · subst hne
          obtain rfl : p2 = p := by
            rw [hg2] at hg; exact Option.some.inj hg
          rw [hopen] at hcl
          exact absurd hcl (by decide)
        · refine ⟨p, ?_, rfl, rfl, hcl⟩
          rw [hseq]
          simp only
          rw [dictGet_dictInsert_ne _ _ hne]
          exact hg
      · exact ⟨p, hg, rfl, rfl, hcl⟩
  | close now2 pid2 =>
      simp only [applyOp]
      split
      · rename_i s' p' hc
        obtain ⟨p2, hg2, hpeq, hseq⟩ := close_ok_inv hc
        by_cases hne : pid2 = pid
        · subst hne
          obtain rfl : p2 = p := by
            rw [hg2] at hg; exact Option.some.inj hg
          refine ⟨p', ?_, ?_, ?_, ?_⟩
          · rw [hseq]
            simp only
            exact dictGet_dictInsert_self _ _ _
          · rw [hpeq]
          · rw [hpeq]
          · rw [hpeq]
        · refine ⟨p, ?_, rfl, rfl, hcl⟩
          rw [hseq]
          simp only
          rw [dictGet_dictInsert_ne _ _ hne]
          exact hg
      · exact ⟨p, hg, rfl, rfl, hcl⟩

theorem closed_frozen_run {s : Store} {pid : Nat} {p : PollRecord}
    (hwf : storeWF s) (hg : dictGet s.polls pid = some p)
    (hcl : p.status = "closed") (ops : List Op) :
    ∃ q, dictGet (run s ops).polls pid = some q ∧
      q.options = p.options ∧ q.voters = p.voters ∧ q.status = "closed" := by
  induction ops generalizing s p with
  | nil => exact ⟨p, hg, rfl, rfl, hcl⟩
  | cons op ops ih =>
      obtain ⟨q, hq, ho, hv, hqs⟩ := closed_frozen_applyOp hwf hg hcl op
      obtain ⟨q2, hq2, ho2, hv2, hqs2⟩ := ih (storeWF_applyOp hwf op) hq hqs
      exact ⟨q2, hq2, by rw [ho2, ho], by rw [hv2, hv], hqs2⟩

/-- C4: once a reachable poll is closed, every later vote call on it —
straight away or after any further operations — fails with `AlreadyClosed`,
and the poll's options (hence its vote counts) and voter ledger stay
exactly as they were at the moment of closing. -/
theorem closed_rejects_votes (ops0 : List Op) (now pid : Nat) (s' : Store)
    (p' : PollRecord)
    (h : close_poll (run Store.empty ops0) now pid = Except.ok (s', p'))
    (ops1 : List Op) (v : Str) (oid : Nat) :
    vote (run s' ops1) pid v oid = Except.error StoreError.AlreadyClosed ∧
    ∃ q, dictGet (run s' ops1).polls pid = some q ∧
      q.options = p'.options ∧ q.voters = p'.voters ∧ q.status = "closed" := by
  have hwf0 : storeWF (run Store.empty ops0) := storeWF_run storeWF_empty _
  obtain ⟨p, hg, hpeq, hseq⟩ := close_ok_inv h
  have hwf' : storeWF s' := by
    intro pid2 p2 h2
    rw [hseq] at h2 ⊢
    simp only [dictGet_dictInsert] at h2
    simp only
    by_cases hne : pid = pid2
    · subst hne; exact hwf0 pid p hg
    · rw [if_neg hne] at h2
      exact hwf0 pid2 p2 h2
  have hg' : dictGet s'.polls pid = some p' := by
    rw [hseq]
    simp only
    exact dictGet_dictInsert_self _ _ _
  have hcl' : p'.status = "closed" := by rw [hpeq]
  obtain ⟨q, hq, ho, hv, hqs⟩ := closed_frozen_run hwf' hg' hcl' ops1
  refine ⟨?_, q, hq, ho, hv, hqs⟩
  refine vote_already_closed hq ?_
  rw [hqs]
  decide

/-- Witness for C4: after closing poll 0 at time 7 and then creating an
unrelated poll, Bob's vote on poll 0 is rejected and the frozen tallies
survive. -/
theorem closed_rejects_votes_witness :
    vote (run sClosed [Op.create 9 (str "N") [str "x", str "y"]]) 0
      (str "Bob") 2 = Except.error StoreError.AlreadyClosed ∧
    ∃ q, dictGet (run sClosed
        [Op.create 9 (str "N") [str "x", str "y"]]).polls 0 = some q ∧
      q.options = pClosed.options ∧ q.voters = pClosed.voters ∧
      q.status = "closed" :=
  closed_rejects_votes
    [Op.create 0 (str "T") [str "A", str "B"], Op.vote 0 (str "Ann") 1]
    7 0 sClosed pClosed (by rfl)
    [Op.create 9 (str "N") [str "x", str "y"]] (str "Bob") 2

end Elections
